import Mathlib

/-!
Verification of the provenance data model and its consistency-preserving
operations (fragments, decisions, assumptions, links; similarity-based
linking; extraction filtering; embedding cache), shallowly embedded from
`src/api/provo`.

Conventions of the embedding:
* SQLite tables (`SCHEMA_SQL` in `storage/database.py`) become lists of rows;
  a `Database` method becomes a function on a `Store` value.
* `TEXT PRIMARY KEY` identifiers (UUIDs in the source) are modelled as `Nat`;
  the only property the source uses is freshness/distinctness.
* `REAL` columns (strength, confidence, distance) are modelled as `ℚ`.
* ISO-8601 timestamp strings are modelled as `Nat` (the encoding is order
  isomorphic, and no verified claim depends on more than the ordering).
* `PRAGMA foreign_keys = ON` is issued on every connection in
  `Database.connect`, so foreign-key actions (`ON DELETE CASCADE`,
  `ON DELETE SET NULL`) and foreign-key checks on INSERT/UPDATE are part of
  the semantics; operations that can hit an integrity error return `Except`.
  A raised error aborts the statement and leaves the store unchanged.
-/

namespace Provenance

/-- `SourceType` from `storage/models.py` (CHECK constraint in the schema). -/
inductive SourceType where
  | quick_capture
  | zoom
  | teams
  | notes
  deriving DecidableEq, Repr

/-- `LinkType` from `storage/models.py` (CHECK constraint in the schema). -/
inductive LinkType where
  | relates_to
  | references
  | follows
  | contradicts
  | invalidates
  deriving DecidableEq, Repr

/-- A row of the `fragments` table. -/
structure FragmentRow where
  id : Nat
  raw_content : String
  summary : Option String
  source_type : SourceType
  source_ref : Option String
  captured_at : Nat
  participants : List String
  topics : List String
  project : Option String
  created_at : Nat
  deriving DecidableEq, Repr

/-- A row of the `decisions` table. -/
structure DecisionRow where
  id : Nat
  fragment_id : Nat
  what : String
  why : String
  confidence : ℚ
  created_at : Nat
  deriving DecidableEq, Repr

/-- A row of the `assumptions` table.  `still_valid` is the nullable boolean
column (`NULL` = unknown, `1` = valid, `0` = invalid); `invalidated_by` is the
nullable reference to the invalidating fragment. -/
structure AssumptionRow where
  id : Nat
  fragment_id : Nat
  statement : String
  explicit : Bool
  still_valid : Option Bool
  invalidated_by : Option Nat
  created_at : Nat
  deriving DecidableEq, Repr

/-- A row of the `fragment_links` table.  The schema declares
`UNIQUE(source_id, target_id, link_type)`. -/
structure LinkRow where
  id : Nat
  source_id : Nat
  target_id : Nat
  link_type : LinkType
  strength : ℚ
  created_at : Nat
  deriving DecidableEq, Repr

/-- The relational store: the four tables of `SCHEMA_SQL`. -/
structure Store where
  fragments : List FragmentRow
  decisions : List DecisionRow
  assumptions : List AssumptionRow
  links : List LinkRow
  deriving DecidableEq, Repr

/-- An integrity error raised by the storage engine (foreign-key or
uniqueness violation); distinct from the not-found outcome, which the
database methods report by returning `false`. -/
inductive DbError where
  | constraintViolation
  deriving DecidableEq, Repr

/-- `Database.get_fragment`: the fragment row by id, together with its
decisions and assumptions (three SELECTs on one connection). -/
def get_fragment (s : Store) (fragment_id : Nat) :
    Option (FragmentRow × List DecisionRow × List AssumptionRow) :=
  match s.fragments.find? (fun f => decide (f.id = fragment_id)) with
  | none => none
  | some f =>
      some (f,
        s.decisions.filter (fun d => decide (d.fragment_id = fragment_id)),
        s.assumptions.filter (fun a => decide (a.fragment_id = fragment_id)))

/-- `Database.delete_fragment`: `DELETE FROM fragments WHERE id = ?` with
foreign keys on, returning `rowcount > 0`.  The cascade removes decisions and
assumptions owned by the fragment and links having it as source or target
(`ON DELETE CASCADE`), and nulls out `assumptions.invalidated_by` references
to it (`ON DELETE SET NULL`); all of it in the one deleting transaction. -/
def delete_fragment (s : Store) (fragment_id : Nat) : Bool × Store :=
  if s.fragments.any (fun f => decide (f.id = fragment_id)) then
    (true,
      { fragments := s.fragments.filter (fun f => decide (¬ f.id = fragment_id)),
        decisions := s.decisions.filter (fun d => decide (¬ d.fragment_id = fragment_id)),
        assumptions :=
          (s.assumptions.filter (fun a => decide (¬ a.fragment_id = fragment_id))).map
            (fun a =>
              if a.invalidated_by = some fragment_id then
                { a with invalidated_by := none }
              else a),
        links := s.links.filter
          (fun l => decide (¬ l.source_id = fragment_id ∧ ¬ l.target_id = fragment_id)) })
  else
    (false, s)

/-- `Database.create_assumption`: plain INSERT.  With foreign keys on, the
insert fails if the `id` is already taken (PRIMARY KEY), if the owning
fragment does not exist, or if a non-null `invalidated_by` does not name an
existing fragment. -/
def create_assumption (s : Store) (a : AssumptionRow) : Except DbError Store :=
  if s.assumptions.any (fun r => decide (r.id = a.id)) then
    Except.error DbError.constraintViolation
  else if s.fragments.any (fun f => decide (f.id = a.fragment_id)) then
    match a.invalidated_by with
    | none => Except.ok { s with assumptions := s.assumptions ++ [a] }
    | some x =>
        if s.fragments.any (fun f => decide (f.id = x)) then
          Except.ok { s with assumptions := s.assumptions ++ [a] }
        else Except.error DbError.constraintViolation
  else Except.error DbError.constraintViolation

/-- `Database.invalidate_assumption`:
`UPDATE assumptions SET still_valid = 0, invalidated_by = ? WHERE id = ?`,
returning `rowcount > 0`.  When the WHERE clause matches no row, nothing is
updated and no foreign-key check runs; when it matches, the new
`invalidated_by` value must name an existing fragment or the storage engine
rejects the update (`invalidated_by REFERENCES fragments(id)` with
`PRAGMA foreign_keys = ON`).  The Python method performs no existence check
of its own. -/
def invalidate_assumption (s : Store) (assumption_id invalidated_by : Nat) :
    Except DbError (Bool × Store) :=
  if s.assumptions.any (fun a => decide (a.id = assumption_id)) then
    if s.fragments.any (fun f => decide (f.id = invalidated_by)) then
      Except.ok (true,
        { s with assumptions := s.assumptions.map (fun a =>
            if a.id = assumption_id then
              { a with still_valid := some false, invalidated_by := some invalidated_by }
            else a) })
    else Except.error DbError.constraintViolation
  else Except.ok (false, s)

/-- `Database.update_assumption_validity`:
`UPDATE assumptions SET still_valid = ? WHERE id = ?`, returning
`rowcount > 0`.  Only `still_valid` is written; `invalidated_by` is left
untouched. -/
def update_assumption_validity (s : Store) (assumption_id : Nat) (still_valid : Bool) :
    Bool × Store :=
  (s.assumptions.any (fun a => decide (a.id = assumption_id)),
    { s with assumptions := s.assumptions.map (fun a =>
        if a.id = assumption_id then { a with still_valid := some still_valid } else a) })

/-- Insertion into a list sorted by `created_at` descending (embeds
`ORDER BY created_at DESC`; ties may land in either order in SQLite, and no
claim depends on tie order). -/
def insertByCreatedDesc (a : AssumptionRow) : List AssumptionRow → List AssumptionRow
  | [] => [a]
  | b :: t =>
      if b.created_at ≤ a.created_at then a :: b :: t
      else b :: insertByCreatedDesc a t

/-- Sort by `created_at` descending. -/
def sortByCreatedDesc : List AssumptionRow → List AssumptionRow
  | [] => []
  | a :: t => insertByCreatedDesc a (sortByCreatedDesc t)

/-- `Database.list_assumptions` with its filters: by project (JOIN against the
owning fragment), by owning fragment, by time window, `valid_only`
(`still_valid = 1 OR still_valid IS NULL`), `invalid_only`
(`still_valid = 0`), then `ORDER BY created_at DESC LIMIT ?`. -/
def list_assumptions (s : Store) (fragment_id : Option Nat) (project : Option String)
    (since : Option Nat) (valid_only invalid_only : Bool) (limit : Nat) :
    List AssumptionRow :=
  let base :=
    match project with
    | some p => s.assumptions.filter (fun a =>
        (s.fragments.find? (fun f => decide (f.id = a.fragment_id))).any
          (fun f => decide (f.project = some p)))
    | none => s.assumptions
  let q1 :=
    match fragment_id with
    | some fid => base.filter (fun a => decide (a.fragment_id = fid))
    | none => base
  let q2 :=
    match since with
    | some t => q1.filter (fun a => decide (t ≤ a.created_at))
    | none => q1
  let q3 :=
    if valid_only then
      q2.filter (fun a => decide (a.still_valid = some true ∨ a.still_valid = none))
    else q2
  let q4 :=
    if invalid_only then q3.filter (fun a => decide (a.still_valid = some false))
    else q3
  (sortByCreatedDesc q4).take limit

/-- Two link rows carrying the same `(source_id, target_id, link_type)`
triple (the schema's UNIQUE constraint). -/
def sameTriple (x y : LinkRow) : Prop :=
  x.source_id = y.source_id ∧ x.target_id = y.target_id ∧ x.link_type = y.link_type

instance : DecidablePred fun p : LinkRow × LinkRow => sameTriple p.1 p.2 :=
  fun _ => instDecidableAnd

instance (x y : LinkRow) : Decidable (sameTriple x y) := instDecidableAnd

/-- The write made by `INSERT OR REPLACE INTO fragment_links ...`: SQLite's
REPLACE conflict resolution deletes every pre-existing row that collides with
the new row on any uniqueness constraint — the `id` PRIMARY KEY or the
`(source_id, target_id, link_type)` UNIQUE triple — and then inserts the new
row whole. -/
def upsertLinks (s : Store) (l : LinkRow) : Store :=
  { s with links :=
      (s.links.filter (fun r => decide (¬ r.id = l.id ∧ ¬ sameTriple r l))) ++ [l] }

/-- `Database.create_link`: the upsert above; with foreign keys on, both
endpoint fragments must exist. -/
def create_link (s : Store) (l : LinkRow) : Except DbError Store :=
  if s.fragments.any (fun f => decide (f.id = l.source_id))
      && s.fragments.any (fun f => decide (f.id = l.target_id)) then
    Except.ok (upsertLinks s l)
  else Except.error DbError.constraintViolation

/-! ## LinkingEngine (`api/routes/fragments.py`) -/

/-- `SIMILARITY_THRESHOLD` from `api/routes/fragments.py`. -/
def SIMILARITY_THRESHOLD : ℚ := 0.75

/-- One entry of the vector index's `search_similar` answer
(`SearchResult` in `storage/vector_store.py`; the optional metadata plays no
role in linking and is omitted). -/
structure SearchResult where
  fragment_id : Nat
  distance : ℚ
  deriving DecidableEq, Repr

/-- The similarity the linking loop derives from a reported cosine distance:
`similarity = 1.0 - result.distance`, with no clamping. -/
def similarity (distance : ℚ) : ℚ := 1 - distance

/-- The `for result in similar_results` loop of
`link_similar_fragments_background`: skip the querying fragment itself, skip
neighbors with `similarity < SIMILARITY_THRESHOLD`, otherwise persist a
`relates_to` link of strength `similarity` via `Database.create_link`.
`nid` supplies the fresh `uuid4` identifiers of the created links; an
integrity error raised by `create_link` propagates out of the loop to the
task's catch-all handler, so the remaining iterations never run and the
store keeps only the links committed so far. -/
def newLink (fid nid : Nat) (r : SearchResult) : LinkRow :=
  { id := nid, source_id := fid, target_id := r.fragment_id,
    link_type := LinkType.relates_to, strength := similarity r.distance,
    created_at := 0 }

def link_similar_loop (fid : Nat) : Store → Nat → List SearchResult → Store
  | s, _, [] => s
  | s, nid, r :: rest =>
      if r.fragment_id = fid then
        link_similar_loop fid s nid rest
      else if similarity r.distance < SIMILARITY_THRESHOLD then
        link_similar_loop fid s nid rest
      else
        match create_link s (newLink fid nid r) with
        | Except.ok s2 => link_similar_loop fid s2 (nid + 1) rest
        | Except.error _ => s

/-- `link_similar_fragments_background` applied to the list the vector index
returned (the embedding/query steps are the external index's side). -/
def link_similar_fragments_background (s : Store) (fid : Nat)
    (results : List SearchResult) (nid : Nat) : Store :=
  link_similar_loop fid s nid results

/-- Modelled from the spec: `similarity = clamp(1 − distance, 0, 1)` — the
clamped similarity the specification describes, for comparison with the
source's unclamped `similarity`. -/
def clampedSimilaritySpec (distance : ℚ) : ℚ :=
  max 0 (min (1 - distance) 1)

/-! ## ExtractionFilter (`processing/extraction.py`) -/

/-- A candidate decision as read off the parsed provider JSON
(`raw_decision.get(...)` with its defaults and coercions already applied). -/
structure RawDecision where
  what : String
  why : String
  confidence : ℚ
  deriving DecidableEq, Repr

/-- A candidate assumption as read off the parsed provider JSON. -/
structure RawAssumption where
  statement : String
  explicit : Bool
  deriving DecidableEq, Repr

/-- Outcome of `llm.generate_json` as seen by an extractor: a parsed
candidate list together with the provider's model tag, a `ValueError`
(unparseable structured output, including a malformed confidence number), or
a `ConnectionError` (provider unreachable). -/
inductive LLMReply (α : Type) where
  | parsed (items : List α) (model : String)
  | parseFailure
  | connectionFailure
  deriving DecidableEq, Repr

/-- An error the extractor re-raises to its caller. -/
inductive ExtractError where
  | connectionError
  deriving DecidableEq, Repr

/-- `ExtractionResult` of `DecisionExtractor` (the raw response dict is
dropped; no claim touches it). -/
structure ExtractionResultD where
  decisions : List DecisionRow
  model : String
  deriving DecidableEq, Repr

/-- `AssumptionExtractionResult` of `AssumptionExtractor`. -/
structure ExtractionResultA where
  assumptions : List AssumptionRow
  model : String
  deriving DecidableEq, Repr

/-- `DecisionExtractor.extract_decisions`: keep candidates unless
`confidence < min_confidence`; a `ValueError` from parsing becomes the empty
result with model tag `"unknown"`; any other exception propagates.  `nid`
supplies the fresh `uuid4` identifiers of the created `Decision` records. -/
def extract_decisions (reply : LLMReply RawDecision) (fragment_id : Nat)
    (min_confidence : ℚ) (nid : Nat) : Except ExtractError ExtractionResultD :=
  match reply with
  | LLMReply.parsed items model =>
      Except.ok
        { decisions :=
            ((items.filter (fun d => decide (¬ d.confidence < min_confidence))).enum).map
              (fun p =>
                { id := nid + p.1, fragment_id := fragment_id, what := p.2.what,
                  why := p.2.why, confidence := p.2.confidence, created_at := 0 }),
          model := model }
  | LLMReply.parseFailure => Except.ok { decisions := [], model := "unknown" }
  | LLMReply.connectionFailure => Except.error ExtractError.connectionError

/-- `AssumptionExtractor.extract_assumptions`: drop candidates with an empty
statement; created assumptions carry `still_valid = None` and
`invalidated_by = None`; a `ValueError` becomes the empty result with model
tag `"unknown"`; any other exception propagates. -/
def extract_assumptions (reply : LLMReply RawAssumption) (fragment_id : Nat)
    (nid : Nat) : Except ExtractError ExtractionResultA :=
  match reply with
  | LLMReply.parsed items model =>
      Except.ok
        { assumptions :=
            ((items.filter (fun a => decide (¬ a.statement = ""))).enum).map
              (fun p =>
                { id := nid + p.1, fragment_id := fragment_id,
                  statement := p.2.statement, explicit := p.2.explicit,
                  still_valid := none, invalidated_by := none, created_at := 0 }),
          model := model }
  | LLMReply.parseFailure => Except.ok { assumptions := [], model := "unknown" }
  | LLMReply.connectionFailure => Except.error ExtractError.connectionError

/-! ## EmbeddingCache (`processing/embeddings.py`) -/

/-- `EmbeddingCache._hash_text` builds the key from
`f"{model}:{text}"` and hashes it with SHA-256; the hash is modelled by the
hashed content itself (injective up to hash collisions, which no claim is
about). -/
def hashText (text model : String) : String :=
  model ++ ":" ++ text

/-- Lookup in an association list with distinct keys (a Python `dict`). -/
def dlookup {V : Type} : List (String × V) → String → Option V
  | [], _ => none
  | p :: t, k => if p.1 = k then some p.2 else dlookup t k

/-- `dict[key] = value`: replace the binding if the key is present, else
append it. -/
def dinsert {V : Type} : List (String × V) → String → V → List (String × V)
  | [], k, v => [(k, v)]
  | p :: t, k, v => if p.1 = k then (k, v) :: t else p :: dinsert t k v

/-- `dict.pop(key, None)`: drop the binding for the key if present. -/
def dremove {V : Type} : List (String × V) → String → List (String × V)
  | [], _ => []
  | p :: t, k => if p.1 = k then t else p :: dremove t k

/-- `list.remove(key)`: drop the first occurrence of the key. -/
def kremove : List String → String → List String
  | [], _ => []
  | a :: t, k => if a = k then t else a :: kremove t k

/-- The state of `EmbeddingCache`: `_cache` (a dict) and `_access_order`
(a list, least-recently-used candidate first). -/
structure EmbeddingCache (V : Type) where
  max_size : Nat
  cache : List (String × V)
  order : List String
  deriving DecidableEq, Repr

/-- `EmbeddingCache.get`: on a hit, move the key to the end of the access
order and return the embedding; on a miss, return nothing and leave the
state alone. -/
def cacheGet {V : Type} (c : EmbeddingCache V) (text model : String) :
    Option V × EmbeddingCache V :=
  let key := hashText text model
  match dlookup c.cache key with
  | some v => (some v, { c with order := kremove c.order key ++ [key] })
  | none => (none, c)

/-- The `while len(self._cache) >= self.max_size and self._access_order:`
eviction loop of `EmbeddingCache.set`: pop the front of the access order and
drop that key from the dict, until the dict is below capacity or the order
list is exhausted. -/
def evictWhile {V : Type} (max_size : Nat) :
    List (String × V) → List String → List (String × V) × List String
  | c, [] => (c, [])
  | c, k :: rest =>
      if max_size ≤ c.length then evictWhile max_size (dremove c k) rest
      else (c, k :: rest)

/-- `EmbeddingCache.set`: run the eviction loop, store the embedding under
the key, and append the key to the access order (note: without removing an
already-present occurrence of the key). -/
def cacheSet {V : Type} (c : EmbeddingCache V) (text model : String) (v : V) :
    EmbeddingCache V :=
  let key := hashText text model
  let p := evictWhile c.max_size c.cache c.order
  { c with cache := dinsert p.1 key v, order := p.2 ++ [key] }

/-- One cache operation of a trace. -/
inductive CacheOp (V : Type) where
  | get (text model : String)
  | put (text model : String) (v : V)
  deriving DecidableEq, Repr

/-- Run a trace of operations against the source's cache (the value a `get`
returns is not recorded here; retrievability is checked on the final
state). -/
def runCache {V : Type} (c : EmbeddingCache V) : List (CacheOp V) → EmbeddingCache V
  | [] => c
  | CacheOp.get t m :: rest => runCache (cacheGet c t m).2 rest
  | CacheOp.put t m v :: rest => runCache (cacheSet c t m v) rest

/-- Modelled from the spec: a reference bounded LRU cache, as a key-value
list ordered least-recently-used first.  `get` and `put` move the touched
key to the most-recent end; a `put` that grows the cache past capacity first
evicts the least-recently-used entry. -/
def lruSpecGet {V : Type} (l : List (String × V)) (key : String) :
    Option V × List (String × V) :=
  match dlookup l key with
  | some v => (some v, dremove l key ++ [(key, v)])
  | none => (none, l)

/-- Modelled from the spec: `put` of the reference LRU cache. -/
def lruSpecPut {V : Type} (max_size : Nat) (l : List (String × V))
    (key : String) (v : V) : List (String × V) :=
  let l1 := dremove l key
  let l2 := if max_size ≤ l1.length then l1.drop 1 else l1
  l2 ++ [(key, v)]

/-- Run a trace of operations against the reference LRU cache. -/
def runLruSpec {V : Type} (max_size : Nat) (l : List (String × V)) :
    List (CacheOp V) → List (String × V)
  | [] => l
  | CacheOp.get t m :: rest => runLruSpec max_size (lruSpecGet l (hashText t m)).2 rest
  | CacheOp.put t m v :: rest =>
      runLruSpec max_size (lruSpecPut max_size l (hashText t m) v) rest

/-! ## Assumption lifecycle traces (for the validity/provenance invariant) -/

/-- A FragmentStore operation touching an assumption's validity fields. -/
inductive AsmOp where
  | create (a : AssumptionRow)
  | invalidate (assumption_id invalidated_by : Nat)
  | setValidity (assumption_id : Nat) (still_valid : Bool)
  deriving DecidableEq, Repr

/-- Apply one operation; a storage-engine error rolls the transaction back
and leaves the store unchanged. -/
def applyAsmOp (s : Store) : AsmOp → Store
  | AsmOp.create a =>
      match create_assumption s a with
      | Except.ok t => t
      | Except.error _ => s
  | AsmOp.invalidate aid fid =>
      match invalidate_assumption s aid fid with
      | Except.ok p => p.2
      | Except.error _ => s
  | AsmOp.setValidity aid b => (update_assumption_validity s aid b).2

/-- Apply a trace of operations. -/
def applyAsmOps (s : Store) (ops : List AsmOp) : Store :=
  ops.foldl applyAsmOp s

/-- Operations that create an assumption with no invalidating reference, or
invalidate one (the direct validity update is excluded). -/
def AsmOp.creationOrInvalidation : AsmOp → Bool
  | AsmOp.create a => decide (a.invalidated_by = none)
  | AsmOp.invalidate _ _ => true
  | AsmOp.setValidity _ _ => false

/-! ## Helper lemmas -/

/-- A successful `create_link` rewrites the links table to the conflict-free
remainder plus the new row. -/
theorem create_link_ok_links (s t : Store) (l : LinkRow)
    (h : create_link s l = Except.ok t) :
    t.links = (s.links.filter (fun r => decide (¬ r.id = l.id ∧ ¬ sameTriple r l))) ++ [l] := by
  unfold create_link at h
  split at h
  · simp only [Except.ok.injEq] at h
    subst h
    rfl
  · simp at h

/-- `create_link` never touches the fragments table. -/
theorem create_link_ok_fragments (s t : Store) (l : LinkRow)
    (h : create_link s l = Except.ok t) : t.fragments = s.fragments := by
  unfold create_link at h
  split at h
  · simp only [Except.ok.injEq] at h
    subst h
    rfl
  · simp at h

/-- `create_link` succeeds exactly when both endpoints exist. -/
theorem create_link_ok_of_endpoints (s : Store) (l : LinkRow)
    (hs : s.fragments.any (fun f => decide (f.id = l.source_id)) = true)
    (ht : s.fragments.any (fun f => decide (f.id = l.target_id)) = true) :
    create_link s l = Except.ok (upsertLinks s l) := by
  unfold create_link
  rw [hs, ht]
  rfl

/-- After a successful `create_link`, the rows matching the new row's
`(source, target, kind)` triple are exactly the new row. -/
theorem create_link_filter_triple (s t : Store) (l : LinkRow)
    (h : create_link s l = Except.ok t) :
    t.links.filter (fun r => decide (sameTriple r l)) = [l] := by
  rw [create_link_ok_links s t l h, List.filter_append]
  have h1 : (s.links.filter (fun r => decide (¬ r.id = l.id ∧ ¬ sameTriple r l))).filter
      (fun r => decide (sameTriple r l)) = [] := by
    rw [List.filter_eq_nil_iff]
    intro r hr
    rcases (List.mem_filter.mp hr) with ⟨_, hkeep⟩
    rcases (of_decide_eq_true hkeep) with ⟨_, hnt⟩
    simp [hnt]
  have h2 : List.filter (fun r => decide (sameTriple r l)) [l] = [l] := by
    simp [sameTriple]
  rw [h1, h2]
  rfl

/-- A fragment used in witnesses: only the identifier matters to the claims. -/
def mkFrag (i : Nat) : FragmentRow :=
  { id := i, raw_content := "", summary := none,
    source_type := SourceType.quick_capture, source_ref := none,
    captured_at := 0, participants := [], topics := [], project := none,
    created_at := 0 }

/-! ## C1: link upsert leaves one edge with the second strength -/

/-- Claim C1: for every pair of `create_link` calls carrying the same
`(source, target, kind)` triple, after the second call the store contains
exactly one edge for that triple, and its strength is the strength passed to
the second call. -/
theorem link_upsert_unique_second_strength (s s₁ s₂ : Store) (l1 l2 : LinkRow)
    (h1 : create_link s l1 = Except.ok s₁)
    (h2 : create_link s₁ l2 = Except.ok s₂)
    (hts : sameTriple l1 l2) :
    s₂.links.filter (fun r => decide (sameTriple r l2)) = [l2]
    ∧ ∀ r ∈ s₂.links, sameTriple r l2 → r.strength = l2.strength := by
  have hf := create_link_filter_triple s₁ s₂ l2 h2
  refine ⟨hf, ?_⟩
  intro r hr htrip
  have : r ∈ s₂.links.filter (fun r => decide (sameTriple r l2)) :=
    List.mem_filter.mpr ⟨hr, decide_eq_true htrip⟩
  rw [hf] at this
  simp only [List.mem_singleton] at this
  rw [this]

def c1Store : Store := ⟨[mkFrag 1, mkFrag 2], [], [], []⟩

def c1l1 : LinkRow :=
  { id := 10, source_id := 1, target_id := 2, link_type := LinkType.relates_to,
    strength := 1/2, created_at := 0 }

def c1l2 : LinkRow :=
  { id := 20, source_id := 1, target_id := 2, link_type := LinkType.relates_to,
    strength := 9/10, created_at := 0 }

def c1Mid : Store := ⟨[mkFrag 1, mkFrag 2], [], [], [c1l1]⟩

def c1Fin : Store := ⟨[mkFrag 1, mkFrag 2], [], [], [c1l2]⟩

/-- Witness for C1 at a concrete pair of calls. -/
theorem link_upsert_unique_second_strength_witness :
    (create_link c1Store c1l1 = Except.ok c1Mid
      ∧ create_link c1Mid c1l2 = Except.ok c1Fin
      ∧ sameTriple c1l1 c1l2)
    ∧ (c1Fin.links.filter (fun r => decide (sameTriple r c1l2)) = [c1l2]
      ∧ ∀ r ∈ c1Fin.links, sameTriple r c1l2 → r.strength = c1l2.strength) :=
  ⟨⟨rfl, rfl, by decide⟩,
    link_upsert_unique_second_strength c1Store c1Mid c1Fin c1l1 c1l2
      rfl rfl (by decide)⟩

/-! ## C7: re-asserting a link replaces the whole row, identifier included -/

def c7Store : Store := ⟨[mkFrag 1, mkFrag 2], [], [], []⟩

def c7l1 : LinkRow :=
  { id := 10, source_id := 1, target_id := 2, link_type := LinkType.follows,
    strength := 1/2, created_at := 0 }

def c7l2 : LinkRow :=
  { id := 20, source_id := 1, target_id := 2, link_type := LinkType.follows,
    strength := 9/10, created_at := 0 }

/-- Both `create_link` calls of the C7 scenario in sequence. -/
def createLinkTwice (s : Store) (l1 l2 : LinkRow) : Except DbError Store :=
  match create_link s l1 with
  | Except.ok t => create_link t l2
  | Except.error e => Except.error e

/-- Counterexample to claim C7 as stated: re-asserting the triple
`(1, 2, follows)` — first created with identifier 10 — with a second call
carrying identifier 20 leaves the edge with identifier 20, not the
identifier assigned at first creation.  `INSERT OR REPLACE` deletes the
conflicting row and inserts the new row whole, identifier included. -/
theorem link_upsert_id_cex :
    (createLinkTwice c7Store c7l1 c7l2).map (fun t => t.links.map (fun r => (r.id, r.strength)))
      = Except.ok [(20, 9/10)]
    ∧ c7l1.id = 10 ∧ c7l2.id = 20 ∧ sameTriple c7l1 c7l2 := by
  refine ⟨rfl, rfl, rfl, by decide⟩

/-- Claim C7 amended: re-asserting the same `(source, target, kind)` triple
replaces the edge's row entirely — afterwards every edge matching the triple
carries the second call's identifier (and strength), and the identifier
assigned at first creation is gone (provided it was fresh and differs from
the second call's). -/
theorem link_upsert_id_replaced (s s₁ s₂ : Store) (l1 l2 : LinkRow)
    (h1 : create_link s l1 = Except.ok s₁)
    (h2 : create_link s₁ l2 = Except.ok s₂)
    (hts : sameTriple l1 l2)
    (hfresh : ∀ r ∈ s.links, ¬ r.id = l1.id)
    (hne : ¬ l1.id = l2.id) :
    (∀ r ∈ s₂.links, sameTriple r l2 → r.id = l2.id)
    ∧ (∀ r ∈ s₂.links, ¬ r.id = l1.id) := by
  have hf := create_link_filter_triple s₁ s₂ l2 h2
  constructor
  · intro r hr htrip
    have : r ∈ s₂.links.filter (fun r => decide (sameTriple r l2)) :=
      List.mem_filter.mpr ⟨hr, decide_eq_true htrip⟩
    rw [hf] at this
    simp only [List.mem_singleton] at this
    rw [this]
  · intro r hr
    rw [create_link_ok_links s₁ s₂ l2 h2] at hr
    rcases List.mem_append.mp hr with hmem | hmem
    · have hmem1 := (List.mem_filter.mp hmem).1
      rw [create_link_ok_links s s₁ l1 h1] at hmem1
      rcases List.mem_append.mp hmem1 with hs0 | hl1
      · exact hfresh r (List.mem_filter.mp hs0).1
      · simp only [List.mem_singleton] at hl1
        subst hl1
        rcases of_decide_eq_true (List.mem_filter.mp hmem).2 with ⟨_, hnt⟩
        exact absurd hts hnt
    · simp only [List.mem_singleton] at hmem
      subst hmem
      intro hc
      exact hne hc.symm

def c7Mid : Store := ⟨[mkFrag 1, mkFrag 2], [], [], [c7l1]⟩

def c7Fin : Store := ⟨[mkFrag 1, mkFrag 2], [], [], [c7l2]⟩

/-- Witness for the amended C7 at a concrete pair of calls. -/
theorem link_upsert_id_replaced_witness :
    (create_link c7Store c7l1 = Except.ok c7Mid
      ∧ create_link c7Mid c7l2 = Except.ok c7Fin
      ∧ sameTriple c7l1 c7l2
      ∧ (∀ r ∈ c7Store.links, ¬ r.id = c7l1.id)
      ∧ ¬ c7l1.id = c7l2.id)
    ∧ ((∀ r ∈ c7Fin.links, sameTriple r c7l2 → r.id = c7l2.id)
      ∧ (∀ r ∈ c7Fin.links, ¬ r.id = c7l1.id)) :=
  ⟨⟨rfl, rfl, by decide, by decide, by decide⟩,
    link_upsert_id_replaced c7Store c7Mid c7Fin c7l1 c7l2
      rfl rfl (by decide) (by decide) (by decide)⟩

/-! ## C5: similarity is `1 − distance`, unclamped -/

/-- Counterexample to claim C5 as stated: at the in-range distance 2 the
linking loop derives similarity `−1`, not the clamped value `0` the claim
requires. -/
theorem similarity_clamp_cex :
    similarity 2 = -1
    ∧ clampedSimilaritySpec 2 = 0
    ∧ ¬ similarity 2 = clampedSimilaritySpec 2 := by
  have h1 : min (1 - (2 : ℚ)) 1 = 1 - 2 := min_eq_left (by norm_num)
  have h2 : max (0 : ℚ) (1 - 2) = 0 := max_eq_left (by norm_num)
  have hc : clampedSimilaritySpec 2 = 0 := by rw [clampedSimilaritySpec, h1, h2]
  have hs : similarity 2 = -1 := by norm_num [similarity]
  refine ⟨hs, hc, by rw [hs, hc]; norm_num⟩

/-- Claim C5 amended: the linking loop derives `similarity = 1 − distance`
with no clamping (distance 0 ↦ 1, distance 1 ↦ 0, distance 0.25 ↦ 0.75, but
distance 2 ↦ −1); for every non-negative distance the missing clamp is
unobservable in linking decisions: the threshold comparison agrees with the
clamped value's, and whenever the derived similarity reaches the threshold it
coincides with the clamped value. -/
theorem similarity_eq_one_sub (d : ℚ) (hd : 0 ≤ d) :
    similarity d = 1 - d
    ∧ ((similarity d < SIMILARITY_THRESHOLD) ↔
        (clampedSimilaritySpec d < SIMILARITY_THRESHOLD))
    ∧ (SIMILARITY_THRESHOLD ≤ similarity d → clampedSimilaritySpec d = similarity d)
    ∧ similarity 0 = 1 ∧ similarity 1 = 0 ∧ similarity (1/4) = 3/4 := by
  have hmin : min (1 - d) 1 = 1 - d := min_eq_left (by linarith)
  have hcl : clampedSimilaritySpec d = max 0 (1 - d) := by
    rw [clampedSimilaritySpec, hmin]
  refine ⟨rfl, ?_, ?_, by norm_num [similarity], by norm_num [similarity],
    by norm_num [similarity]⟩
  · rw [hcl]
    unfold similarity SIMILARITY_THRESHOLD
    rw [max_lt_iff]
    constructor
    · intro h
      exact ⟨by norm_num, h⟩
    · intro h
      exact h.2
  · intro h
    rw [hcl]
    unfold similarity at h ⊢
    unfold SIMILARITY_THRESHOLD at h
    have : (0 : ℚ) ≤ 1 - d := by
      have : (0 : ℚ) < 0.75 := by norm_num
      linarith
    exact max_eq_right this

/-- Witness for the amended C5 at distance 1/4. -/
theorem similarity_eq_one_sub_witness :
    (0 : ℚ) ≤ 1/4
    ∧ (similarity (1/4) = 1 - 1/4
      ∧ ((similarity (1/4) < SIMILARITY_THRESHOLD) ↔
          (clampedSimilaritySpec (1/4) < SIMILARITY_THRESHOLD))
      ∧ (SIMILARITY_THRESHOLD ≤ similarity (1/4) →
          clampedSimilaritySpec (1/4) = similarity (1/4))
      ∧ similarity 0 = 1 ∧ similarity 1 = 0 ∧ similarity (1/4) = 3/4) :=
  ⟨by norm_num, similarity_eq_one_sub (1/4) (by norm_num)⟩

/-! ## C8: a parse failure yields the empty result, tagged "unknown" -/

/-- Claim C8: for every provider response whose structured shape cannot be
parsed, both extractors return an empty record list with model tag
`"unknown"` instead of raising — the `ValueError` never propagates. -/
theorem extraction_parse_failure (fragment_id nid : Nat) (min_confidence : ℚ) :
    extract_decisions LLMReply.parseFailure fragment_id min_confidence nid
      = Except.ok { decisions := [], model := "unknown" }
    ∧ extract_assumptions LLMReply.parseFailure fragment_id nid
      = Except.ok { assumptions := [], model := "unknown" } :=
  ⟨rfl, rfl⟩

/-! ## C2: delete-fragment cascades in one transaction -/

/-- Claim C2: deleting a present fragment returns `true` and removes, in the
one deleting transaction, the fragment, every decision and assumption owned
by it, and every link having it as source or target; deleting an absent id
returns `false` and changes nothing; and a subsequent get of the deleted id
returns none. -/
theorem delete_fragment_cascades (s : Store) (fid : Nat) :
    (s.fragments.any (fun f => decide (f.id = fid)) = true →
      (delete_fragment s fid).1 = true
      ∧ (∀ f ∈ (delete_fragment s fid).2.fragments, ¬ f.id = fid)
      ∧ (∀ d ∈ (delete_fragment s fid).2.decisions, ¬ d.fragment_id = fid)
      ∧ (∀ a ∈ (delete_fragment s fid).2.assumptions, ¬ a.fragment_id = fid)
      ∧ (∀ l ∈ (delete_fragment s fid).2.links,
          ¬ l.source_id = fid ∧ ¬ l.target_id = fid))
    ∧ (s.fragments.any (fun f => decide (f.id = fid)) = false →
      delete_fragment s fid = (false, s))
    ∧ get_fragment (delete_fragment s fid).2 fid = none := by
  by_cases hc : s.fragments.any (fun f => decide (f.id = fid)) = true
  · refine ⟨fun _ => ?_, fun hjunk => absurd hc (by simp [hjunk]), ?_⟩
    · simp only [delete_fragment, hc, if_true]
      refine ⟨by trivial, ?_, ?_, ?_, ?_⟩
      · intro f hf
        exact of_decide_eq_true (List.mem_filter.mp hf).2
      · intro d hd
        exact of_decide_eq_true (List.mem_filter.mp hd).2
      · intro a ha
        rcases List.mem_map.mp ha with ⟨b, hb, hba⟩
        have hbid : ¬ b.fragment_id = fid := of_decide_eq_true (List.mem_filter.mp hb).2
        have : a.fragment_id = b.fragment_id := by
          by_cases hbi : b.invalidated_by = some fid <;> simp [hbi] at hba <;> rw [← hba]
        rw [this]
        exact hbid
      · intro l hl
        exact of_decide_eq_true (List.mem_filter.mp hl).2
    · simp only [delete_fragment, hc, if_true, get_fragment]
      have hnone : ((s.fragments.filter (fun f => decide (¬ f.id = fid))).find?
          (fun f => decide (f.id = fid))) = none := by
        rw [List.find?_eq_none]
        intro f hf
        have := of_decide_eq_true (List.mem_filter.mp hf).2
        simp [this]
      rw [hnone]
  · have hc0 : s.fragments.any (fun f => decide (f.id = fid)) = false :=
      Bool.eq_false_iff.mpr hc
    have hdel : delete_fragment s fid = (false, s) := by
      simp [delete_fragment, hc0]
    refine ⟨fun hj => absurd hj hc, fun _ => hdel, ?_⟩
    rw [hdel]
    simp only [get_fragment]
    have hnone : s.fragments.find? (fun f => decide (f.id = fid)) = none := by
      rw [List.find?_eq_none]
      intro f hf hdec
      have : s.fragments.any (fun f => decide (f.id = fid)) = true :=
        List.any_eq_true.mpr ⟨f, hf, hdec⟩
      rw [this] at hc0
      cases hc0
    rw [hnone]

def c2Store : Store :=
  ⟨[mkFrag 1, mkFrag 2],
    [{ id := 50, fragment_id := 1, what := "w", why := "", confidence := 9/10,
       created_at := 0 }],
    [{ id := 60, fragment_id := 1, statement := "s", explicit := true,
       still_valid := none, invalidated_by := none, created_at := 0 }],
    [{ id := 70, source_id := 1, target_id := 2, link_type := LinkType.relates_to,
       strength := 1/2, created_at := 0 }]⟩

/-- Witness for C2 at a concrete store holding a fragment with a decision,
an assumption and a link. -/
theorem delete_fragment_cascades_witness :
    (c2Store.fragments.any (fun f => decide (f.id = 1)) = true
      ∧ ((delete_fragment c2Store 1).1 = true
        ∧ (∀ f ∈ (delete_fragment c2Store 1).2.fragments, ¬ f.id = 1)
        ∧ (∀ d ∈ (delete_fragment c2Store 1).2.decisions, ¬ d.fragment_id = 1)
        ∧ (∀ a ∈ (delete_fragment c2Store 1).2.assumptions, ¬ a.fragment_id = 1)
        ∧ (∀ l ∈ (delete_fragment c2Store 1).2.links,
            ¬ l.source_id = 1 ∧ ¬ l.target_id = 1)))
    ∧ get_fragment (delete_fragment c2Store 1).2 1 = none :=
  ⟨⟨by decide, (delete_fragment_cascades c2Store 1).1 (by decide)⟩,
    (delete_fragment_cascades c2Store 1).2.2⟩

/-! ## C3: invalidate-assumption and the foreign-key check -/

def c3Store : Store :=
  ⟨[mkFrag 1], [],
    [{ id := 5, fragment_id := 1, statement := "s", explicit := true,
       still_valid := none, invalidated_by := none, created_at := 0 }], []⟩

/-- Counterexample to claim C3 as stated: with assumption 5 present but
fragment 9 absent, `invalidate_assumption` does not succeed (and does not
merely report not-found): the schema's foreign-key constraint on
`invalidated_by` rejects the update.  The claim asserted the operation
performs no check that the invalidating fragment exists and would set the
reference to 9. -/
theorem invalidate_assumption_fk_cex :
    invalidate_assumption c3Store 5 9 = Except.error DbError.constraintViolation
    ∧ c3Store.assumptions.any (fun a => decide (a.id = 5)) = true
    ∧ c3Store.fragments.any (fun f => decide (f.id = 9)) = false :=
  ⟨rfl, by decide, by decide⟩

/-- The store an `invalidate_assumption` call leaves behind (unchanged when
the transaction was rolled back). -/
def invalidateResultStore (s : Store) (assumption_id invalidated_by : Nat) : Store :=
  match invalidate_assumption s assumption_id invalidated_by with
  | Except.ok p => p.2
  | Except.error _ => s

/-- Claim C3 amended: `invalidate_assumption` reports not-found (returns
`false`, mapped to NotFound by its caller) exactly when the assumption id
does not exist, and no foreign-key check runs in that case; when the
assumption exists and the invalidating fragment exists, the call succeeds
and afterwards the assumption's validity is Invalid and its
invalidating-fragment reference equals the given fragment id; the operation
performs no application-level existence check of the invalidating fragment,
but when the assumption exists and the fragment does not, the storage
engine's foreign-key constraint rejects the update with an integrity error
distinct from NotFound. -/
theorem invalidate_assumption_spec (s : Store) (aid fid : Nat) :
    (s.assumptions.any (fun a => decide (a.id = aid)) = false →
      invalidate_assumption s aid fid = Except.ok (false, s))
    ∧ (s.assumptions.any (fun a => decide (a.id = aid)) = true →
        (s.fragments.any (fun f => decide (f.id = fid)) = true →
          invalidate_assumption s aid fid
            = Except.ok (true, invalidateResultStore s aid fid)
          ∧ (∀ a ∈ (invalidateResultStore s aid fid).assumptions,
              a.id = aid → a.still_valid = some false ∧ a.invalidated_by = some fid)
          ∧ (∀ a ∈ (invalidateResultStore s aid fid).assumptions,
              ¬ a.id = aid → a ∈ s.assumptions))
        ∧ (s.fragments.any (fun f => decide (f.id = fid)) = false →
          invalidate_assumption s aid fid = Except.error DbError.constraintViolation)) := by
  refine ⟨fun h0 => ?_, fun h1 => ⟨fun h2 => ?_, fun h3 => ?_⟩⟩
  · simp [invalidate_assumption, h0]
  · have hres : invalidateResultStore s aid fid
        = { s with assumptions := s.assumptions.map (fun a =>
            if a.id = aid then
              { a with still_valid := some false, invalidated_by := some fid }
            else a) } := by
      simp [invalidateResultStore, invalidate_assumption, h1, h2]
    refine ⟨by simp [invalidate_assumption, h1, h2, hres], ?_, ?_⟩
    · intro a ha haid
      rw [hres] at ha
      rcases List.mem_map.mp ha with ⟨b, _, hba⟩
      by_cases hbid : b.id = aid
      · rw [if_pos hbid] at hba
        rw [← hba]
        exact ⟨rfl, rfl⟩
      · rw [if_neg hbid] at hba
        rw [← hba] at haid
        exact absurd haid hbid
    · intro a ha haid
      rw [hres] at ha
      rcases List.mem_map.mp ha with ⟨b, hb, hba⟩
      by_cases hbid : b.id = aid
      · rw [if_pos hbid] at hba
        have : a.id = aid := by rw [← hba]; exact hbid
        exact absurd this haid
      · rw [if_neg hbid] at hba
        rw [← hba]
        exact hb
  · simp [invalidate_assumption, h1, h3]

/-- Witness for the amended C3: invalidating assumption 5 with the existing
fragment 1 succeeds and records the reference. -/
theorem invalidate_assumption_spec_witness :
    (c3Store.assumptions.any (fun a => decide (a.id = 5)) = true
      ∧ c3Store.fragments.any (fun f => decide (f.id = 1)) = true)
    ∧ (invalidate_assumption c3Store 5 1
        = Except.ok (true, invalidateResultStore c3Store 5 1)
      ∧ (∀ a ∈ (invalidateResultStore c3Store 5 1).assumptions,
          a.id = 5 → a.still_valid = some false ∧ a.invalidated_by = some 1)
      ∧ (∀ a ∈ (invalidateResultStore c3Store 5 1).assumptions,
          ¬ a.id = 5 → a ∈ c3Store.assumptions)) :=
  ⟨⟨by decide, by decide⟩,
    ((invalidate_assumption_spec c3Store 5 1).2 (by decide)).1 (by decide)⟩

/-! ## C10: the valid-only filter keeps Unknown -/

/-- Membership in a descending insertion is membership in the parts. -/
theorem mem_insertByCreatedDesc (a b : AssumptionRow) :
    ∀ l : List AssumptionRow, b ∈ insertByCreatedDesc a l ↔ b = a ∨ b ∈ l
  | [] => by simp [insertByCreatedDesc]
  | c :: t => by
      by_cases h : c.created_at ≤ a.created_at
      · simp [insertByCreatedDesc, h]
      · simp only [insertByCreatedDesc, if_neg h, List.mem_cons,
          mem_insertByCreatedDesc a b t]
        tauto

/-- Sorting by `created_at` descending preserves membership. -/
theorem mem_sortByCreatedDesc (b : AssumptionRow) :
    ∀ l : List AssumptionRow, b ∈ sortByCreatedDesc l ↔ b ∈ l
  | [] => Iff.rfl
  | a :: t => by
      simp only [sortByCreatedDesc, mem_insertByCreatedDesc a b (sortByCreatedDesc t),
        mem_sortByCreatedDesc b t, List.mem_cons]

/-- A descending insertion grows the length by one. -/
theorem length_insertByCreatedDesc (a : AssumptionRow) :
    ∀ l : List AssumptionRow, (insertByCreatedDesc a l).length = l.length + 1
  | [] => rfl
  | c :: t => by
      by_cases h : c.created_at ≤ a.created_at
      · simp [insertByCreatedDesc, h]
      · simp [insertByCreatedDesc, h, length_insertByCreatedDesc a t]

/-- Sorting by `created_at` descending preserves length. -/
theorem length_sortByCreatedDesc :
    ∀ l : List AssumptionRow, (sortByCreatedDesc l).length = l.length
  | [] => rfl
  | a :: t => by
      simp [sortByCreatedDesc, length_insertByCreatedDesc a (sortByCreatedDesc t),
        length_sortByCreatedDesc t]

/-- `take` of a list no longer than the count returns the whole list. -/
theorem take_all_of_length_le {alpha : Type} :
    ∀ (l : List alpha) (n : Nat), l.length ≤ n → l.take n = l
  | [], _, _ => by simp
  | a :: t, n, h => by
      cases n with
      | zero => simp at h
      | succ m =>
          simp only [List.take]
          rw [take_all_of_length_le t m (Nat.le_of_succ_le_succ (by simpa using h))]

/-- Claim C10: listing assumptions with the valid-only filter (and no other
filter, with a limit covering the table) returns an assumption exactly when
its validity is Valid or Unknown — the Unknown (NULL) state is included, and
only explicitly Invalid assumptions are filtered out. -/
theorem list_assumptions_valid_only_keeps_unknown (s : Store) (a : AssumptionRow)
    (limit : Nat) (ha : a ∈ s.assumptions) (hlim : s.assumptions.length ≤ limit) :
    a ∈ list_assumptions s none none none true false limit
      ↔ (a.still_valid = some true ∨ a.still_valid = none) := by
  have hred : list_assumptions s none none none true false limit
      = (sortByCreatedDesc (s.assumptions.filter
          (fun a => decide (a.still_valid = some true ∨ a.still_valid = none)))).take
          limit := by
    simp [list_assumptions]
  rw [hred]
  have hflen : (s.assumptions.filter
      (fun a => decide (a.still_valid = some true ∨ a.still_valid = none))).length
      ≤ limit :=
    le_trans (List.length_filter_le _ _) hlim
  rw [take_all_of_length_le _ _ (by rw [length_sortByCreatedDesc]; exact hflen)]
  rw [mem_sortByCreatedDesc]
  rw [List.mem_filter]
  constructor
  · intro h
    exact of_decide_eq_true h.2
  · intro h
    exact ⟨ha, decide_eq_true h⟩

def c10Store : Store :=
  ⟨[mkFrag 1], [],
    [{ id := 1, fragment_id := 1, statement := "valid", explicit := true,
       still_valid := some true, invalidated_by := none, created_at := 3 },
     { id := 2, fragment_id := 1, statement := "invalid", explicit := true,
       still_valid := some false, invalidated_by := some 1, created_at := 2 },
     { id := 3, fragment_id := 1, statement := "unknown", explicit := true,
       still_valid := none, invalidated_by := none, created_at := 1 }], []⟩

def c10Unknown : AssumptionRow :=
  { id := 3, fragment_id := 1, statement := "unknown", explicit := true,
    still_valid := none, invalidated_by := none, created_at := 1 }

/-- Witness for C10: the Unknown assumption is in the valid-only listing. -/
theorem list_assumptions_valid_only_keeps_unknown_witness :
    (c10Unknown ∈ c10Store.assumptions ∧ c10Store.assumptions.length ≤ 50)
    ∧ (c10Unknown ∈ list_assumptions c10Store none none none true false 50
        ↔ (c10Unknown.still_valid = some true ∨ c10Unknown.still_valid = none)) :=
  ⟨⟨by decide, by decide⟩,
    list_assumptions_valid_only_keeps_unknown c10Store c10Unknown 50
      (by decide) (by decide)⟩

/-! ## C6: the invalidating reference against the validity state -/

def c6Store : Store :=
  ⟨[mkFrag 1], [],
    [{ id := 1, fragment_id := 1, statement := "s", explicit := true,
       still_valid := none, invalidated_by := none, created_at := 0 }], []⟩

def c6Trace : List AsmOp := [AsmOp.invalidate 1 1, AsmOp.setValidity 1 true]

/-- Counterexample to claim C6 as stated: invalidating assumption 1 (with
fragment 1) and then updating its validity to Valid yields a reachable store
state whose single assumption is Valid (`still_valid = some true`) while its
invalidating-fragment reference is still non-null — the update to Valid does
not clear `invalidated_by`. -/
theorem assumption_valid_with_ref_cex :
    (applyAsmOps c6Store c6Trace).assumptions.map
        (fun a => (a.still_valid, a.invalidated_by))
      = [(some true, some 1)] := rfl

/-- One step of a creation-with-null-reference or invalidation preserves the
reference-only-when-invalid invariant. -/
theorem applyAsmOp_preserves_ref_invariant (s : Store) (op : AsmOp)
    (hop : op.creationOrInvalidation = true)
    (hinv : ∀ a ∈ s.assumptions, ¬ a.invalidated_by = none → a.still_valid = some false) :
    ∀ a ∈ (applyAsmOp s op).assumptions,
      ¬ a.invalidated_by = none → a.still_valid = some false := by
  cases op with
  | create a0 =>
      have ha0 : a0.invalidated_by = none := of_decide_eq_true hop
      simp only [applyAsmOp]
      cases hc : create_assumption s a0 with
      | error e => exact hinv
      | ok t =>
          have ht : t.assumptions = s.assumptions ++ [a0] := by
            unfold create_assumption at hc
            rw [ha0] at hc
            split at hc
            · simp at hc
            · split at hc
              · simp only [Except.ok.injEq] at hc
                subst hc
                rfl
              · simp at hc
          intro a hmem href
          rw [ht] at hmem
          rcases List.mem_append.mp hmem with h | h
          · exact hinv a h href
          · simp only [List.mem_singleton] at h
            subst h
            exact absurd ha0 href
  | invalidate aid fid =>
      simp only [applyAsmOp]
      cases hc : invalidate_assumption s aid fid with
      | error e => exact hinv
      | ok p =>
          unfold invalidate_assumption at hc
          split at hc
          · split at hc
            · simp only [Except.ok.injEq] at hc
              subst hc
              intro a hmem href
              rcases List.mem_map.mp hmem with ⟨b, hb, hba⟩
              by_cases hbid : b.id = aid
              · rw [if_pos hbid] at hba
                rw [← hba]
              · rw [if_neg hbid] at hba
                rw [← hba] at href ⊢
                exact hinv b hb href
            · simp at hc
          · simp only [Except.ok.injEq] at hc
            subst hc
            exact hinv
  | setValidity aid b => simp [AsmOp.creationOrInvalidation] at hop

/-- Claim C6 amended: in every store state reachable through
create-assumption calls that record no invalidating reference and through
invalidate-assumption, an assumption's invalidating-fragment reference is
non-null only when its validity is Invalid; the direct validity update to
Valid records no new invalidating fragment — it leaves every assumption's
reference exactly as it was — which is why invalidating and then updating to
Valid leaves a Valid assumption with a non-null reference. -/
theorem assumption_ref_only_when_invalid (s : Store) (ops : List AsmOp)
    (hinv : ∀ a ∈ s.assumptions, ¬ a.invalidated_by = none → a.still_valid = some false)
    (hops : ∀ op ∈ ops, op.creationOrInvalidation = true) :
    (∀ a ∈ (applyAsmOps s ops).assumptions,
      ¬ a.invalidated_by = none → a.still_valid = some false)
    ∧ (∀ (t : Store) (aid : Nat) (b : Bool),
        ((update_assumption_validity t aid b).2).assumptions.map
            (fun a => a.invalidated_by)
          = t.assumptions.map (fun a => a.invalidated_by)) := by
  constructor
  · induction ops generalizing s with
    | nil => exact hinv
    | cons op rest ih =>
        have hstep := applyAsmOp_preserves_ref_invariant s op
          (hops op (List.mem_cons_self op rest)) hinv
        exact ih (applyAsmOp s op) hstep
          (fun o ho => hops o (List.mem_cons_of_mem op ho))
  · intro t aid b
    simp only [update_assumption_validity, List.map_map]
    apply List.map_congr_left
    intro a _
    by_cases h : a.id = aid <;> simp [h]

def c6wStore : Store := ⟨[mkFrag 1], [], [], []⟩

def c6wTrace : List AsmOp :=
  [AsmOp.create
      { id := 2, fragment_id := 1, statement := "t", explicit := true,
        still_valid := none, invalidated_by := none, created_at := 0 },
    AsmOp.invalidate 2 1]

/-- Witness for the amended C6 on a concrete creation-then-invalidation
trace. -/
theorem assumption_ref_only_when_invalid_witness :
    ((∀ a ∈ c6wStore.assumptions, ¬ a.invalidated_by = none → a.still_valid = some false)
      ∧ (∀ op ∈ c6wTrace, op.creationOrInvalidation = true))
    ∧ ((∀ a ∈ (applyAsmOps c6wStore c6wTrace).assumptions,
          ¬ a.invalidated_by = none → a.still_valid = some false)
      ∧ (∀ (t : Store) (aid : Nat) (b : Bool),
          ((update_assumption_validity t aid b).2).assumptions.map
              (fun a => a.invalidated_by)
            = t.assumptions.map (fun a => a.invalidated_by))) :=
  ⟨⟨by decide, by simp [c6wTrace, AsmOp.creationOrInvalidation]⟩,
    assumption_ref_only_when_invalid c6wStore c6wTrace (by decide)
      (by simp [c6wTrace, AsmOp.creationOrInvalidation])⟩

/-! ## C9: the embedding cache against the LRU contract -/

def c9Cache0 : EmbeddingCache Nat := ⟨3, [], []⟩

def c9Trace : List (CacheOp Nat) :=
  [CacheOp.put "a" "m" 1, CacheOp.put "b" "m" 2, CacheOp.put "a" "m" 3,
    CacheOp.put "c" "m" 4, CacheOp.put "d" "m" 5]

/-- Claim C9 evaluated at the failing input: against a cache of maximum size
3, after `put a, put b, put a, put c, put d` the source's cache has evicted
`a` and kept `b`, while the reference LRU cache of the claim (where `put`
refreshes the recency of an existing entry) keeps `a` — refreshed by its
second put — and evicts `b`, the least-recently-used entry.  The source's
`set` appends a duplicate of an already-present key to `_access_order`
without removing the old position, so eviction pops a stale position. -/
theorem embedding_cache_lru_bug :
    (cacheGet (runCache c9Cache0 c9Trace) "a" "m").1 = none
    ∧ (cacheGet (runCache c9Cache0 c9Trace) "b" "m").1 = some 2
    ∧ (lruSpecGet (runLruSpec 3 [] c9Trace) (hashText "a" "m")).1 = some 3
    ∧ (lruSpecGet (runLruSpec 3 [] c9Trace) (hashText "b" "m")).1 = none :=
  ⟨rfl, rfl, rfl, rfl⟩

/-! ## C4: the linking loop's persisted edges -/

/-- A neighbor the loop links to: not the querying fragment itself, and not
below the threshold (the source keeps a neighbor when
`¬ similarity < SIMILARITY_THRESHOLD`, i.e. at the threshold or above). -/
def qualifies (fid : Nat) (r : SearchResult) : Prop :=
  ¬ r.fragment_id = fid ∧ ¬ similarity r.distance < SIMILARITY_THRESHOLD

/-- The links table written by `upsertLinks`. -/
theorem upsertLinks_links (s : Store) (l : LinkRow) :
    (upsertLinks s l).links
      = (s.links.filter (fun r => decide (¬ r.id = l.id ∧ ¬ sameTriple r l))) ++ [l] :=
  rfl

/-- Rows selected by a predicate that only holds for rows older than every
identifier the loop will mint, and never for a triple the loop inserts, are
left untouched by the loop. -/
theorem link_loop_filter_frame (fid : Nat) (p : LinkRow → Bool) :
    ∀ (results : List SearchResult) (s : Store) (nid : Nat),
      (∀ l ∈ s.links, p l = true → l.id < nid) →
      (∀ r ∈ results, qualifies fid r → ∀ l : LinkRow, p l = true →
        ¬ (l.source_id = fid ∧ l.target_id = r.fragment_id
            ∧ l.link_type = LinkType.relates_to)) →
      (link_similar_loop fid s nid results).links.filter p = s.links.filter p := by
  intro results
  induction results with
  | nil => intro s nid _ _; rfl
  | cons r rest ih =>
      intro s nid hid hnp
      by_cases hself : r.fragment_id = fid
      · simp only [link_similar_loop, if_pos hself]
        exact ih s nid hid (fun r2 h2 => hnp r2 (List.mem_cons_of_mem r h2))
      · by_cases hlow : similarity r.distance < SIMILARITY_THRESHOLD
        · simp only [link_similar_loop, if_neg hself, if_pos hlow]
          exact ih s nid hid (fun r2 h2 => hnp r2 (List.mem_cons_of_mem r h2))
        · have hq : qualifies fid r := ⟨hself, hlow⟩
          have hpnl : p (newLink fid nid r) = false := by
            cases hpn : p (newLink fid nid r)
            · rfl
            · exact absurd ⟨rfl, rfl, rfl⟩
                (hnp r (List.mem_cons_self r rest) hq _ hpn)
          simp only [link_similar_loop, if_neg hself, if_neg hlow]
          cases hcl : create_link s (newLink fid nid r) with
          | error e => rfl
          | ok s2 =>
              have hlinks := create_link_ok_links s s2 _ hcl
              have hid2 : ∀ l ∈ s2.links, p l = true → l.id < nid + 1 := by
                intro l hl hp
                rw [hlinks] at hl
                rcases List.mem_append.mp hl with h | h
                · exact Nat.lt_succ_of_lt (hid l (List.mem_filter.mp h).1 hp)
                · simp only [List.mem_singleton] at h
                  subst h
                  rw [hpnl] at hp
                  cases hp
              rw [ih s2 (nid + 1) hid2
                (fun r2 h2 => hnp r2 (List.mem_cons_of_mem r h2))]
              rw [hlinks, List.filter_append]
              have h1 : List.filter p [newLink fid nid r] = [] := by
                simp [List.filter_cons, hpnl]
              rw [h1, List.append_nil, List.filter_filter]
              apply List.filter_congr
              intro x hx
              cases hpx : p x
              · simp
              · simp only [Bool.true_and]
                have hxid : x.id < nid := hid x hx hpx
                have hnid : ¬ x.id = (newLink fid nid r).id := by
                  show ¬ x.id = nid
                  omega
                have hxt : ¬ sameTriple x (newLink fid nid r) := by
                  intro hst
                  exact hnp r (List.mem_cons_self r rest) hq x hpx
                    ⟨hst.1, hst.2.1, hst.2.2⟩
                exact decide_eq_true ⟨hnid, hxt⟩

/-- The linking loop, on pairwise-distinct neighbor ids whose qualifying
targets (and the querying fragment) exist in the store, leaves the fragments
table alone, leaves exactly one relates-to edge of strength
`similarity distance` per qualifying neighbor, and adds nothing else. -/
theorem link_loop_spec_aux (fid : Nat) :
    ∀ (results : List SearchResult) (s : Store) (nid : Nat),
      (results.map (fun r => r.fragment_id)).Nodup →
      s.fragments.any (fun f => decide (f.id = fid)) = true →
      (∀ r ∈ results, qualifies fid r →
        s.fragments.any (fun f => decide (f.id = r.fragment_id)) = true) →
      (∀ l ∈ s.links, l.id < nid) →
      (link_similar_loop fid s nid results).fragments = s.fragments
      ∧ (∀ r ∈ results, qualifies fid r →
          ((link_similar_loop fid s nid results).links.filter
            (fun l => decide (l.source_id = fid ∧ l.target_id = r.fragment_id
              ∧ l.link_type = LinkType.relates_to))).map (fun l => l.strength)
            = [similarity r.distance])
      ∧ (∀ l ∈ (link_similar_loop fid s nid results).links,
          l ∈ s.links ∨
            (nid ≤ l.id ∧ l.source_id = fid ∧ l.link_type = LinkType.relates_to
              ∧ ¬ l.target_id = fid
              ∧ ∃ r, r ∈ results ∧ r.fragment_id = l.target_id ∧ qualifies fid r
                  ∧ l.strength = similarity r.distance)) := by
  intro results
  induction results with
  | nil =>
      intro s nid _ _ _ _
      exact ⟨rfl, fun r hr => absurd hr (List.not_mem_nil r), fun l hl => Or.inl hl⟩
  | cons r rest ih =>
      intro s nid hnodup hfid hexists hids
      have hnodup2 : (rest.map (fun r => r.fragment_id)).Nodup :=
        (List.nodup_cons.mp hnodup).2
      have hhead : r.fragment_id ∉ rest.map (fun r => r.fragment_id) :=
        (List.nodup_cons.mp hnodup).1
      by_cases hself : r.fragment_id = fid
      · simp only [link_similar_loop, if_pos hself]
        have hres := ih s nid hnodup2 hfid
          (fun r2 h2 => hexists r2 (List.mem_cons_of_mem r h2)) hids
        refine ⟨hres.1, ?_, ?_⟩
        · intro r2 hr2 hq2
          rcases List.mem_cons.mp hr2 with heq | h2
          · subst heq
            exact absurd hself hq2.1
          · exact hres.2.1 r2 h2 hq2
        · intro l hl
          rcases hres.2.2 l hl with h | h
          · exact Or.inl h
          · exact Or.inr ⟨h.1, h.2.1, h.2.2.1, h.2.2.2.1,
              (h.2.2.2.2).elim (fun r2 h2 =>
                ⟨r2, List.mem_cons_of_mem r h2.1, h2.2⟩)⟩
      · by_cases hlow : similarity r.distance < SIMILARITY_THRESHOLD
        · simp only [link_similar_loop, if_neg hself, if_pos hlow]
          have hres := ih s nid hnodup2 hfid
            (fun r2 h2 => hexists r2 (List.mem_cons_of_mem r h2)) hids
          refine ⟨hres.1, ?_, ?_⟩
          · intro r2 hr2 hq2
            rcases List.mem_cons.mp hr2 with heq | h2
            · subst heq
              exact absurd hlow (fun hc => hq2.2 hc)
            · exact hres.2.1 r2 h2 hq2
          · intro l hl
            rcases hres.2.2 l hl with h | h
            · exact Or.inl h
            · exact Or.inr ⟨h.1, h.2.1, h.2.2.1, h.2.2.2.1,
                (h.2.2.2.2).elim (fun r2 h2 =>
                  ⟨r2, List.mem_cons_of_mem r h2.1, h2.2⟩)⟩
        · have hq : qualifies fid r := ⟨hself, hlow⟩
          have htgt : s.fragments.any (fun f => decide (f.id = r.fragment_id)) = true :=
            hexists r (List.mem_cons_self r rest) hq
          have hok := create_link_ok_of_endpoints s (newLink fid nid r) hfid htgt
          simp only [link_similar_loop, if_neg hself, if_neg hlow, hok]
          have hfrag2 : (upsertLinks s (newLink fid nid r)).fragments = s.fragments := rfl
          have hid2 : ∀ l ∈ (upsertLinks s (newLink fid nid r)).links, l.id < nid + 1 := by
            intro l hl
            rw [upsertLinks_links] at hl
            rcases List.mem_append.mp hl with h | h
            · exact Nat.lt_succ_of_lt (hids l (List.mem_filter.mp h).1)
            · simp only [List.mem_singleton] at h
              subst h
              exact Nat.lt_succ_self nid
          have hres := ih (upsertLinks s (newLink fid nid r)) (nid + 1) hnodup2
            (by rw [hfrag2]; exact hfid)
            (fun r2 h2 hq2 => by
              rw [hfrag2]
              exact hexists r2 (List.mem_cons_of_mem r h2) hq2)
            hid2
          refine ⟨by rw [hres.1]; rfl, ?_, ?_⟩
          · intro r2 hr2 hq2
            rcases List.mem_cons.mp hr2 with heq | h2
            · subst heq
              have hframe := link_loop_filter_frame fid
                (fun l => decide (l.source_id = fid ∧ l.target_id = r2.fragment_id
                  ∧ l.link_type = LinkType.relates_to))
                rest (upsertLinks s (newLink fid nid r2)) (nid + 1)
                (fun l hl _ => hid2 l hl)
                (fun r3 h3 _ l hp hcon => by
                  have h1 := of_decide_eq_true hp
                  have heq2 : r2.fragment_id = r3.fragment_id := by
                    rw [← h1.2.1, hcon.2.1]
                  refine hhead ?_
                  rw [heq2]
                  exact List.mem_map.mpr ⟨r3, h3, rfl⟩)
              rw [hframe]
              rw [upsertLinks_links, List.filter_append]
              have hkeep : (s.links.filter (fun x => decide (¬ x.id = (newLink fid nid r2).id
                  ∧ ¬ sameTriple x (newLink fid nid r2)))).filter
                  (fun l => decide (l.source_id = fid ∧ l.target_id = r2.fragment_id
                    ∧ l.link_type = LinkType.relates_to)) = [] := by
                rw [List.filter_eq_nil_iff]
                intro x hx hpx
                have hk := of_decide_eq_true (List.mem_filter.mp hx).2
                have hp2 := of_decide_eq_true hpx
                exact hk.2 ⟨hp2.1, hp2.2.1, hp2.2.2⟩
              rw [hkeep, List.nil_append]
              have hone : List.filter
                  (fun l => decide (l.source_id = fid ∧ l.target_id = r2.fragment_id
                    ∧ l.link_type = LinkType.relates_to)) [newLink fid nid r2]
                  = [newLink fid nid r2] := by
                have htrip : (newLink fid nid r2).source_id = fid
                    ∧ (newLink fid nid r2).target_id = r2.fragment_id
                    ∧ (newLink fid nid r2).link_type = LinkType.relates_to :=
                  ⟨rfl, rfl, rfl⟩
                simp [List.filter_cons, htrip.1, htrip.2.1, htrip.2.2]
              rw [hone]
              rfl
            · exact hres.2.1 r2 h2 hq2
          · intro l hl
            rcases hres.2.2 l hl with h | h
            · rw [upsertLinks_links] at h
              rcases List.mem_append.mp h with h0 | h0
              · exact Or.inl (List.mem_filter.mp h0).1
              · simp only [List.mem_singleton] at h0
                subst h0
                exact Or.inr ⟨Nat.le_refl nid, rfl, rfl, hself,
                  ⟨r, List.mem_cons_self r rest, rfl, hq, rfl⟩⟩
            · exact Or.inr ⟨Nat.le_trans (Nat.le_succ nid) h.1, h.2.1, h.2.2.1,
                h.2.2.2.1, (h.2.2.2.2).elim (fun r2 h2 =>
                  ⟨r2, List.mem_cons_of_mem r h2.1, h2.2⟩)⟩

/-- Claim C4 amended: for a neighbor list with pairwise-distinct ids, with
the querying fragment and every qualifying neighbor present in the relational
store, the linking operation persists exactly one relates-to link from the
querying fragment to each neighbor whose id differs from the querying
fragment's and whose derived similarity is at least the threshold 0.75 (the
boundary value 0.75 itself is linked, since the source skips only
`similarity < SIMILARITY_THRESHOLD`), with strength equal to that
similarity; and it persists no other link — every link not already in the
store is a relates-to edge from the querying fragment to such a qualifying
neighbor, and in particular never a self-link. -/
theorem linking_engine_links (s : Store) (fid nid : Nat)
    (results : List SearchResult)
    (hnodup : (results.map (fun r => r.fragment_id)).Nodup)
    (hfid : s.fragments.any (fun f => decide (f.id = fid)) = true)
    (hexists : ∀ r ∈ results, qualifies fid r →
      s.fragments.any (fun f => decide (f.id = r.fragment_id)) = true)
    (hids : ∀ l ∈ s.links, l.id < nid) :
    (∀ r ∈ results, qualifies fid r →
      ((link_similar_fragments_background s fid results nid).links.filter
        (fun l => decide (l.source_id = fid ∧ l.target_id = r.fragment_id
          ∧ l.link_type = LinkType.relates_to))).map (fun l => l.strength)
        = [similarity r.distance])
    ∧ (∀ l ∈ (link_similar_fragments_background s fid results nid).links,
        l ∈ s.links ∨
          (nid ≤ l.id ∧ l.source_id = fid ∧ l.link_type = LinkType.relates_to
            ∧ ¬ l.target_id = fid
            ∧ ∃ r, r ∈ results ∧ r.fragment_id = l.target_id ∧ qualifies fid r
                ∧ l.strength = similarity r.distance)) := by
  have h := link_loop_spec_aux fid results s nid hnodup hfid hexists hids
  exact ⟨h.2.1, h.2.2⟩

def c4r : SearchResult := { fragment_id := 2, distance := 1/4 }

def c4Store : Store := ⟨[mkFrag 1, mkFrag 2], [], [], []⟩

def c4Results : List SearchResult := [c4r]

/-- Counterexample to claim C4 as stated: at reported distance 0.25 the
derived similarity is exactly 0.75, which does not exceed the threshold
0.75 — so the claim requires that no link be persisted — yet the loop
persists one relates-to link of strength 0.75, because the source skips a
neighbor only when `similarity < SIMILARITY_THRESHOLD`. -/
theorem linking_threshold_boundary_cex :
    (link_similar_fragments_background c4Store 1 c4Results 10).links.map
        (fun l => (l.source_id, l.target_id, l.link_type, l.strength))
      = [(1, 2, LinkType.relates_to, similarity c4r.distance)]
    ∧ similarity c4r.distance = 3/4
    ∧ SIMILARITY_THRESHOLD = 3/4
    ∧ ¬ SIMILARITY_THRESHOLD < similarity c4r.distance := by
  have hself : ¬ c4r.fragment_id = 1 := by decide
  have hlow : ¬ similarity c4r.distance < SIMILARITY_THRESHOLD := by
    norm_num [similarity, SIMILARITY_THRESHOLD, c4r]
  have hok := create_link_ok_of_endpoints c4Store (newLink 1 10 c4r)
    (by decide) (by decide)
  have hstep : link_similar_fragments_background c4Store 1 c4Results 10
      = upsertLinks c4Store (newLink 1 10 c4r) := by
    show link_similar_loop 1 c4Store 10 c4Results = _
    simp only [c4Results, link_similar_loop]
    rw [if_neg hself, if_neg hlow, hok]
  rw [hstep]
  refine ⟨rfl, ?_, ?_, ?_⟩
  · norm_num [similarity, c4r]
  · norm_num [SIMILARITY_THRESHOLD]
  · norm_num [similarity, SIMILARITY_THRESHOLD, c4r]

def c4wStore : Store := ⟨[mkFrag 1, mkFrag 2, mkFrag 3], [], [], []⟩

def c4wSelf : SearchResult := { fragment_id := 1, distance := 0 }

def c4wNear : SearchResult := { fragment_id := 2, distance := 1/10 }

def c4wFar : SearchResult := { fragment_id := 3, distance := 6/10 }

def c4wResults : List SearchResult := [c4wSelf, c4wNear, c4wFar]

/-- Witness for the amended C4 on a neighbor list holding the querying
fragment itself, a close neighbor and a distant one. -/
theorem linking_engine_links_witness :
    ((c4wResults.map (fun r => r.fragment_id)).Nodup
      ∧ c4wStore.fragments.any (fun f => decide (f.id = 1)) = true
      ∧ (∀ r ∈ c4wResults, qualifies 1 r →
          c4wStore.fragments.any (fun f => decide (f.id = r.fragment_id)) = true)
      ∧ (∀ l ∈ c4wStore.links, l.id < 10))
    ∧ ((∀ r ∈ c4wResults, qualifies 1 r →
        ((link_similar_fragments_background c4wStore 1 c4wResults 10).links.filter
          (fun l => decide (l.source_id = 1 ∧ l.target_id = r.fragment_id
            ∧ l.link_type = LinkType.relates_to))).map (fun l => l.strength)
          = [similarity r.distance])
      ∧ (∀ l ∈ (link_similar_fragments_background c4wStore 1 c4wResults 10).links,
          l ∈ c4wStore.links ∨
            (10 ≤ l.id ∧ l.source_id = 1 ∧ l.link_type = LinkType.relates_to
              ∧ ¬ l.target_id = 1
              ∧ ∃ r, r ∈ c4wResults ∧ r.fragment_id = l.target_id ∧ qualifies 1 r
                  ∧ l.strength = similarity r.distance))) :=
  ⟨⟨by decide, by decide,
      by
        intro r hr _
        simp only [c4wResults, List.mem_cons, List.not_mem_nil, or_false] at hr
        rcases hr with rfl | rfl | rfl <;> decide,
      by intro l hl; simp [c4wStore] at hl⟩,
    linking_engine_links c4wStore 1 10 c4wResults (by decide) (by decide)
      (by
        intro r hr _
        simp only [c4wResults, List.mem_cons, List.not_mem_nil, or_false] at hr
        rcases hr with rfl | rfl | rfl <;> decide)
      (by intro l hl; simp [c4wStore] at hl)⟩

end Provenance
